import Mathlib

/-!
Verification of the TalentScout resume-ingestion pipeline.

This file gives a shallow embedding, in Lean 4, of the two Python modules
`src/info_extractor.py` and `src/text_extractor.py`, and proves the
contract-level properties of the two components.

Modelling conventions:
* Python strings are Lean `String`s (worked on as `List Char`); Python
  integers are `Int`/`Nat`.
* The external collaborators (the Ollama chat service, the PDF rasterizer
  and the PaddleOCR engine) are black boxes; functions are parametrized by their
  responses.  A collaborator response of `none` models the collaborator
  raising an exception inside the guarded region.
* Python `None` is modelled by `Json.null`; a raised Python exception that
  escapes a function is modelled by `Except.error`.
* The JSON values handled here are the fragment the resume-record schema
  uses: `null`, strings, arrays and objects (the record fields are
  optional strings and lists of strings).  `json.dumps(·, indent=2)` and
  `json.loads` are modelled on this fragment, including the
  `ensure_ascii` escaping of `json.dump`.
* The file system is an association list from paths to contents; writing
  prepends, reading takes the first (most recent) binding.
-/

namespace TalentScout

/-- JSON values, restricted to the fragment the resume-record schema uses
(`null`, strings, arrays, objects).  `Json.null` also stands for Python's
`None`. -/
inductive Json where
  | null : Json
  | str (s : String) : Json
  | arr (elems : List Json) : Json
  | obj (fields : List (String × Json)) : Json
deriving Repr

/-! ## Characters and whitespace (the `json` module's scanner skips ` \t\n\r`) -/

/-- The whitespace characters skipped by Python's JSON scanner. -/
def isWsChar (c : Char) : Bool :=
  c = ' ' || c = '\t' || c = '\n' || c = '\r'

/-- Drop leading JSON whitespace. -/
def skipWs : List Char → List Char
  | [] => []
  | c :: rest => if isWsChar c then skipWs rest else c :: rest

/-! ## Hexadecimal digits, for the `\uXXXX` escapes of `ensure_ascii` output -/

/-- The lowercase hex digit table used by Python's `'\u%04x'` formatting. -/
def hexDig (m : Nat) : Char :=
  match m with
  | 0 => '0' | 1 => '1' | 2 => '2' | 3 => '3' | 4 => '4'
  | 5 => '5' | 6 => '6' | 7 => '7' | 8 => '8' | 9 => '9'
  | 10 => 'a' | 11 => 'b' | 12 => 'c' | 13 => 'd' | 14 => 'e' | 15 => 'f'
  | _ => '0'

/-- Numeric value of a hex digit (`json.loads` accepts both cases). -/
def hexVal (c : Char) : Option Nat :=
  if 48 ≤ c.toNat ∧ c.toNat ≤ 57 then some (c.toNat - 48)
  else if 97 ≤ c.toNat ∧ c.toNat ≤ 102 then some (c.toNat - 87)
  else if 65 ≤ c.toNat ∧ c.toNat ≤ 70 then some (c.toNat - 55)
  else none

/-- Four-digit lowercase hex rendering of `n < 0x10000`, as `'\u%04x'` does. -/
def toHex4 (n : Nat) : List Char :=
  [hexDig (n / 4096 % 16), hexDig (n / 256 % 16), hexDig (n / 16 % 16), hexDig (n % 16)]

/-- Read four hex digits. -/
def parseHex4 : List Char → Option (Nat × List Char)
  | a :: b :: c :: d :: rest =>
    match hexVal a, hexVal b, hexVal c, hexVal d with
    | some va, some vb, some vc, some vd =>
      some (((va * 16 + vb) * 16 + vc) * 16 + vd, rest)
    | _, _, _, _ => none
  | _ => none

/-! ## String escaping: `json.dump`'s `ensure_ascii` encoder and the
string scanner of `json.loads` -/

/-- Encoding of one character by Python's `py_encode_basestring_ascii`:
the seven short escapes, printable ASCII kept raw, and everything else as
`\uXXXX` (with a surrogate pair above `0xFFFF`). -/
def encodeChar (c : Char) : List Char :=
  if c = '"' then ['\\', '"']
  else if c = '\\' then ['\\', '\\']
  else if c = '\x08' then ['\\', 'b']
  else if c = '\x0c' then ['\\', 'f']
  else if c = '\n' then ['\\', 'n']
  else if c = '\r' then ['\\', 'r']
  else if c = '\t' then ['\\', 't']
  else if c.toNat < 0x20 then '\\' :: 'u' :: toHex4 c.toNat
  else if c.toNat < 0x7f then [c]
  else if c.toNat < 0x10000 then '\\' :: 'u' :: toHex4 c.toNat
  else
    ('\\' :: 'u' :: toHex4 (0xD800 + (c.toNat - 0x10000) / 0x400)) ++
    ('\\' :: 'u' :: toHex4 (0xDC00 + (c.toNat - 0x10000) % 0x400))

/-- Decode one backslash escape, as `json.loads` does (a high surrogate
must be followed by a low surrogate; a Lean `Char` cannot hold a lone
surrogate, so lone surrogates — which `ensure_ascii` output never
contains — are rejected rather than kept). -/
def parseEscape : List Char → Option (Char × List Char)
  | [] => none
  | e :: r =>
    if e = '"' then some ('"', r)
    else if e = '\\' then some ('\\', r)
    else if e = '/' then some ('/', r)
    else if e = 'b' then some ('\x08', r)
    else if e = 'f' then some ('\x0c', r)
    else if e = 'n' then some ('\n', r)
    else if e = 'r' then some ('\r', r)
    else if e = 't' then some ('\t', r)
    else if e = 'u' then
      match parseHex4 r with
      | none => none
      | some (n, r1) =>
        if 0xD800 ≤ n ∧ n < 0xDC00 then
          match r1 with
          | a :: b :: r2 =>
            if a = '\\' ∧ b = 'u' then
              match parseHex4 r2 with
              | none => none
              | some (m, r3) =>
                if 0xDC00 ≤ m ∧ m < 0xE000 then
                  some (Char.ofNat (0x10000 + (n - 0xD800) * 0x400 + (m - 0xDC00)), r3)
                else none
            else none
          | _ => none
        else if 0xDC00 ≤ n ∧ n < 0xE000 then none
        else some (Char.ofNat n, r1)
    else none

/-- Scan a JSON string body after the opening quote (strict mode: raw
control characters are rejected), fuelled by the input length. -/
def parseStringBody : Nat → List Char → Option (List Char × List Char)
  | 0, _ => none
  | _ + 1, [] => none
  | fuel + 1, c :: rest =>
    if c = '"' then some ([], rest)
    else if c = '\\' then
      match parseEscape rest with
      | none => none
      | some (e, rest1) =>
        match parseStringBody fuel rest1 with
        | none => none
        | some (cs, r) => some (e :: cs, r)
    else if c.toNat < 0x20 then none
    else
      match parseStringBody fuel rest with
      | none => none
      | some (cs, r) => some (c :: cs, r)

/-! ## The JSON value scanner of `json.loads`, on the record fragment -/

mutual

/-- Parse one JSON value (of the fragment), fuelled by nesting. -/
def parseVal : Nat → List Char → Option (Json × List Char)
  | 0, _ => none
  | fuel + 1, l =>
    match skipWs l with
    | [] => none
    | c :: rest =>
      if c = 'n' then
        match rest with
        | u :: l1 :: l2 :: r =>
          if u = 'u' ∧ l1 = 'l' ∧ l2 = 'l' then some (.null, r) else none
        | _ => none
      else if c = '"' then
        match parseStringBody (rest.length + 1) rest with
        | none => none
        | some (cs, r) => some (.str (String.mk cs), r)
      else if c = '[' then
        match skipWs rest with
        | [] => none
        | c1 :: r1 =>
          if c1 = ']' then some (.arr [], r1)
          else
            match parseElems fuel (c1 :: r1) with
            | none => none
            | some (vs, r) => some (.arr vs, r)
      else if c = '\x7b' then
        match skipWs rest with
        | [] => none
        | c1 :: r1 =>
          if c1 = '\x7d' then some (.obj [], r1)
          else
            match parseMembers fuel (c1 :: r1) with
            | none => none
            | some (ms, r) => some (.obj ms, r)
      else none

/-- Parse the elements of a non-empty array, up to and including `]`. -/
def parseElems : Nat → List Char → Option (List Json × List Char)
  | 0, _ => none
  | fuel + 1, l =>
    match parseVal fuel l with
    | none => none
    | some (v, rest) =>
      match skipWs rest with
      | [] => none
      | c :: rest1 =>
        if c = ',' then
          match parseElems fuel rest1 with
          | none => none
          | some (vs, r) => some (v :: vs, r)
        else if c = ']' then some ([v], rest1)
        else none

/-- Parse the members of a non-empty object, up to and including `}`. -/
def parseMembers : Nat → List Char → Option (List (String × Json) × List Char)
  | 0, _ => none
  | fuel + 1, l =>
    match skipWs l with
    | [] => none
    | c :: rest =>
      if c = '"' then
        match parseStringBody (rest.length + 1) rest with
        | none => none
        | some (k, rest1) =>
          match skipWs rest1 with
          | [] => none
          | c1 :: rest2 =>
            if c1 = ':' then
              match parseVal fuel rest2 with
              | none => none
              | some (v, rest3) =>
                match skipWs rest3 with
                | [] => none
                | c2 :: rest4 =>
                  if c2 = ',' then
                    match parseMembers fuel rest4 with
                    | none => none
                    | some (ms, r) => some ((String.mk k, v) :: ms, r)
                  else if c2 = '\x7d' then some ([(String.mk k, v)], rest4)
                  else none
            else none
      else none

end

/-- `json.loads`, on the record fragment: parse one value and insist that
nothing but whitespace follows; any other input raises (`Except.error`).
In particular `json.loads ""` fails, as in Python. -/
def jsonLoads (s : String) : Except String Json :=
  match parseVal (s.data.length + 1) s.data with
  | none => .error "Expecting value"
  | some (v, rest) =>
    if skipWs rest = [] then .ok v else .error "Extra data"

/-! ## `json.dump(results, f, indent=2)`: the serializer -/

/-- The separator `json.dump` emits with `indent=2` before an item at
nesting depth `d`: a newline and `2*d` spaces. -/
def newlineIndent (d : Nat) : List Char :=
  '\n' :: List.replicate (2 * d) ' '

/-- Render a string literal with `ensure_ascii` escaping. -/
def renderString (s : String) : List Char :=
  '"' :: (s.data.flatMap encodeChar ++ ['"'])

mutual

/-- Render one JSON value at nesting depth `d`, exactly as
`json.dump(·, f, indent=2)` lays it out (separators `(',', ': ')`,
empty containers on one line, no trailing newline). -/
def renderVal (d : Nat) : Json → List Char
  | .null => ['n', 'u', 'l', 'l']
  | .str s => renderString s
  | .arr [] => ['[', ']']
  | .arr (x :: xs) =>
    '[' :: (newlineIndent (d + 1) ++ renderVal (d + 1) x ++ renderElems (d + 1) xs ++
      (newlineIndent d ++ [']']))
  | .obj [] => ['\x7b', '\x7d']
  | .obj (kv :: kvs) =>
    '\x7b' :: (newlineIndent (d + 1) ++ renderMember (d + 1) kv ++ renderMembers (d + 1) kvs ++
      (newlineIndent d ++ ['\x7d']))

/-- Render the second and later array elements, each preceded by `,`
and a fresh indented line. -/
def renderElems (d : Nat) : List Json → List Char
  | [] => []
  | x :: xs => ',' :: (newlineIndent d ++ renderVal d x ++ renderElems d xs)

/-- Render one object member: quoted key, `: `, value. -/
def renderMember (d : Nat) (kv : String × Json) : List Char :=
  renderString kv.1 ++ (':' :: ' ' :: renderVal d kv.2)

/-- Render the second and later object members. -/
def renderMembers (d : Nat) : List (String × Json) → List Char
  | [] => []
  | kv :: kvs => ',' :: (newlineIndent d ++ renderMember d kv ++ renderMembers d kvs)

end

/-- `json.dump(results, f, indent=2)` as a string. -/
def jsonDump (v : Json) : String :=
  String.mk (renderVal 0 v)

/-! ## Fuel needed by the value scanner on rendered output -/

mutual

/-- Nesting fuel `parseVal` needs to consume a rendered value. -/
def needV : Json → Nat
  | .null => 1
  | .str _ => 1
  | .arr [] => 1
  | .arr (x :: xs) => needE x xs + 1
  | .obj [] => 1
  | .obj (kv :: kvs) => needM kv kvs + 1
termination_by v => sizeOf v

/-- Nesting fuel `parseElems` needs for the elements `x :: xs`. -/
def needE (x : Json) (xs : List Json) : Nat :=
  match xs with
  | [] => needV x + 1
  | y :: ys => max (needV x) (needE y ys) + 1
termination_by sizeOf x + sizeOf xs

/-- Nesting fuel `parseMembers` needs for the members `kv :: kvs`. -/
def needM : (String × Json) → List (String × Json) → Nat
  | (_, v), [] => needV v + 1
  | (_, v), m :: ms => max (needV v) (needM m ms) + 1
termination_by kv kvs => sizeOf kv + sizeOf kvs

end

/-! ## Python primitives used by `info_extractor.py` -/

/-- `str.find(c)`: index of the first occurrence, `-1` if absent. -/
def listFindIdx (l : List Char) (c : Char) : Int :=
  match l with
  | [] => -1
  | x :: xs =>
    if x = c then 0
    else
      let r := listFindIdx xs c
      if r < 0 then -1 else r + 1

/-- `str.rfind(c)`: index of the last occurrence, `-1` if absent. -/
def listRfindIdx (l : List Char) (c : Char) : Int :=
  match l with
  | [] => -1
  | x :: xs =>
    let r := listRfindIdx xs c
    if 0 ≤ r then r + 1 else if x = c then 0 else -1

/-- `model_response.find(c)`. -/
def pyStrFind (s : String) (c : Char) : Int :=
  listFindIdx s.data c

/-- `model_response.rfind(c)`. -/
def pyStrRfind (s : String) (c : Char) : Int :=
  listRfindIdx s.data c

/-- Clamp one slice bound the way Python `s[a:b]` does. -/
def pySliceIdx (len : Nat) (i : Int) : Nat :=
  if i < 0 then (len + i).toNat else min i.toNat len

/-- Python slicing `s[a:b]`. -/
def pySlice (s : String) (a b : Int) : String :=
  String.mk ((s.data.take (pySliceIdx s.data.length b)).drop (pySliceIdx s.data.length a))

/-- `str.endswith(t)`: suffix test, list-based so that it evaluates by
kernel reduction. -/
def pyEndsWith (s t : String) : Bool :=
  decide (t.data = s.data.drop (s.data.length - t.data.length))

/-- `str.startswith(t)`. -/
def pyStartsWith (s t : String) : Bool :=
  decide (t.data = s.data.take t.data.length)

/-- `str.lower()` (ASCII case folding, as the extension test needs). -/
def pyLower (s : String) : String :=
  String.mk (s.data.map Char.toLower)

/-- First-match lookup in an association list (Python `dict` built by our
own code has unique keys; `json.loads` collapses duplicates last-wins, see
`pyDictGet`). -/
def lookupList : List (String × Json) → String → Option Json
  | [], _ => none
  | (k1, v) :: rest, k => if k1 = k then some v else lookupList rest k

/-- `extracted_info.get(key, default)` on the object produced by
`json.loads`: Python's dict keeps the last of duplicate keys, so the
lookup is last-wins over the raw member list. -/
def pyDictGet (kvs : List (String × Json)) (k : String) (dflt : Json) : Json :=
  match lookupList kvs.reverse k with
  | some v => v
  | none => dflt

/-! ## `info_extractor.py` -/

/-- The default record returned when extraction fails
(`info_extractor.py`, lines 98-105). -/
def defaultRecord : Json :=
  .obj [("full_name", .null), ("phone_number", .null), ("email", .null),
        ("location", .null), ("tech_stack", .arr []),
        ("error", .str "Extraction failed")]

/-- The candidate JSON payload `extract_resume_info_with_qwen` hands to
`json.loads` (lines 74-78): `model_response[json_start:json_end]` with
`json_start = find('\x7b')` and `json_end = rfind('\x7d') + 1`, provided
`json_start >= 0 and json_end > 0`; `none` when no parse is attempted. -/
def attemptedPayload (model_response : String) : Option String :=
  let json_start := pyStrFind model_response '\x7b'
  let json_end := pyStrRfind model_response '\x7d' + 1
  if 0 ≤ json_start ∧ 0 < json_end then
    some (pySlice model_response json_start json_end)
  else none

/-- The five-key projection of the parsed object (lines 84-90): each
scalar key via `.get(key)` (default `None`), `tech_stack` via
`.get("tech_stack", [])`; any other key is dropped. -/
def projectRecord (kvs : List (String × Json)) : Json :=
  .obj [("full_name", pyDictGet kvs "full_name" .null),
        ("phone_number", pyDictGet kvs "phone_number" .null),
        ("email", pyDictGet kvs "email" .null),
        ("location", pyDictGet kvs "location" .null),
        ("tech_stack", pyDictGet kvs "tech_stack" (.arr []))]

/-- `extract_resume_info_with_qwen`, parametrized by the Ollama chat
collaborator's response for this call: `none` models the call (or the
response field access) raising inside the `try`.  Every failure — a
raised call, missing braces, a `json.loads` error, or `.get` on a
non-dict (an `AttributeError`, also caught) — falls through to the
default record. -/
def extract_resume_info_with_qwen (chatResponse : Option String) : Json :=
  match chatResponse with
  | none => defaultRecord
  | some model_response =>
    match attemptedPayload model_response with
    | none => defaultRecord
    | some json_content =>
      match jsonLoads json_content with
      | .error _ => defaultRecord
      | .ok (.obj kvs) => projectRecord kvs
      | .ok _ => defaultRecord

/-- `process_resume_file`, parametrized by the chat collaborator and by
the outcome of the guarded `open`/`read` (`Except.error msg` models the
read raising with message `str(e) = msg`; line 125 then returns
`{"error": str(e)}`). -/
def process_resume_file (chat : String → Option String)
    (readResult : Except String String) : Json :=
  match readResult with
  | .error e => .obj [("error", .str e)]
  | .ok text => extract_resume_info_with_qwen (chat text)

/-- `extracted_info['file_name'] = file_path.name` (line 142): Python dict
assignment replaces the value in place when the key exists, otherwise
appends the new key at the end.  On a non-object it would raise; our code
only ever applies it to objects. -/
def pyDictSet (j : Json) (k : String) (v : Json) : Json :=
  match j with
  | .obj kvs =>
    .obj (if kvs.any (fun p => p.1 = k) then
            kvs.map (fun p => if p.1 = k then (k, v) else p)
          else kvs ++ [(k, v)])
  | other => other

/-- `process_all_resumes`, over a directory listing: each entry is a file
name paired with its read outcome, in directory order; `glob('*.txt')`
keeps the names with the plaintext extension. -/
def process_all_resumes (chat : String → Option String)
    (dir : List (String × Except String String)) : List Json :=
  (dir.filter (fun f => pyEndsWith f.1 ".txt")).map (fun f =>
    pyDictSet (process_resume_file chat f.2) "file_name" (.str f.1))

/-! ## The file system -/

/-- The file system: an association list from paths to contents; a write
prepends, a read takes the most recent binding. -/
def FS := List (String × String)

/-- `os.path.exists`. -/
def fsExists (fs : FS) (p : String) : Bool :=
  (fs : List (String × String)).any (fun q => q.1 = p)

/-- Read a file's current contents. -/
def fsRead (fs : FS) (p : String) : Option String :=
  match fs with
  | ([] : List (String × String)) => none
  | q :: rest => if q.1 = p then some q.2 else fsRead rest p

/-- `open(p, 'w')` followed by a full write: the new contents shadow any
previous file at `p`. -/
def fsWrite (fs : FS) (p : String) (text : String) : FS :=
  ((p, text) :: fs : List (String × String))

/-- `save_results_to_json` (lines 147-157): serialize `results` with
`json.dump(results, f, indent=2)` into the file at `output_path`. -/
def save_results_to_json (results : Json) (fs : FS) (output_path : String) : FS :=
  fsWrite fs output_path (jsonDump results)

/-! ## `text_extractor.py` -/

/-- Errors `TextExtractor.extract_text` can raise to its caller (logged
then re-raised, never swallowed). -/
inductive PyErr where
  | fileNotFound (msg : String) : PyErr
  | conversionError (msg : String) : PyErr
deriving Repr

/-- The black-box collaborators of `TextExtractor`: the PyMuPDF rasterizer
(`convert_pdf_to_images`, which re-raises failures) and the PaddleOCR
engine, invoked either on in-memory page bytes or directly on a path.
An OCR result is, per image, a list of result groups each holding the
recognized region strings (a region's `line[1][0]`); `none` models the
engine returning `None`, which — like the empty list — is falsy. -/
structure Collab (Img : Type) where
  rasterize : String → Except String (List Img)
  ocrImage : Img → Option (List (List String))
  ocrPath : String → Option (List (List String))

/-- `"\n".join(lines)`. -/
def joinNL (lines : List String) : String :=
  String.intercalate "\n" lines

/-- `TextExtractor.extract_text` (lines 34-63), threading the file system
through unchanged — the function only reads.  A missing path raises
`FileNotFoundError`; a PDF path (case-insensitive extension test) is
rasterized page by page and each page image is OCRed independently, the
recognized strings being appended in order; any other path is OCRed
directly.  Falsy OCR results (`None` or `[]`) contribute nothing, and a
falsy result on the single-image branch yields `""`. -/
def extract_text {Img : Type} (C : Collab Img) (fs : FS) (file_path : String) :
    Except PyErr String × FS :=
  (if fsExists fs file_path = false then
     .error (.fileNotFound ("File not found: " ++ file_path))
   else if pyEndsWith (pyLower file_path) ".pdf" then
     match C.rasterize file_path with
     | .error e => .error (.conversionError e)
     | .ok images =>
       let text := images.foldl (fun acc img =>
         match C.ocrImage img with
         | none => acc
         | some result => if result.isEmpty then acc else acc ++ result.flatten) []
       .ok (joinNL text)
   else
     match C.ocrPath file_path with
     | none => .ok ""
     | some result => .ok (if result.isEmpty then "" else joinNL result.flatten),
   fs)

/-! ### POSIX path helpers (`os.path` as used by `save_extracted_text`) -/

/-- Strip trailing occurrences of `c`. -/
def rstripChar (l : List Char) (c : Char) : List Char :=
  (l.reverse.dropWhile (fun x => x = c)).reverse

/-- `os.path.dirname` (POSIX): everything before the final slash, with
trailing slashes stripped unless the head is all slashes. -/
def posixDirname (p : String) : String :=
  let l := p.data
  let i := (listRfindIdx l '/' + 1).toNat
  let head := l.take i
  if head ≠ [] ∧ ¬ head.all (fun x => x = '/') then String.mk (rstripChar head '/')
  else String.mk head

/-- `os.path.basename` (POSIX): everything after the final slash. -/
def posixBasename (p : String) : String :=
  String.mk (p.data.drop (listRfindIdx p.data '/' + 1).toNat)

/-- `os.path.splitext` (the `genericpath._splitext` algorithm): split at
the final dot, provided it lies after the final slash and after at least
one non-dot character of the file name (so dotfiles keep their name). -/
def pySplitext (p : String) : String × String :=
  let l := p.data
  let sepIndex := listRfindIdx l '/'
  let dotIndex := listRfindIdx l '.'
  if sepIndex < dotIndex then
    let filenameIndex := (sepIndex + 1).toNat
    if ((l.drop filenameIndex).take (dotIndex.toNat - filenameIndex)).any
        (fun c => c ≠ '.') then
      (String.mk (l.take dotIndex.toNat), String.mk (l.drop dotIndex.toNat))
    else (p, "")
  else (p, "")

/-- `os.path.join` (POSIX, two components). -/
def pyJoin (a b : String) : String :=
  if pyStartsWith b "/" then b
  else if a = "" ∨ pyEndsWith a "/" then a ++ b
  else a ++ "/" ++ b

/-- `TextExtractor.save_extracted_text` (lines 65-81): write `text` to
`extracted_<stem of the original's base name>.txt` next to the original,
overwriting silently, and return that output path. -/
def save_extracted_text (fs : FS) (text : String) (original_file_path : String) :
    String × FS :=
  let output_path := pyJoin (posixDirname original_file_path)
    ("extracted_" ++ (pySplitext (posixBasename original_file_path)).1 ++ ".txt")
  (output_path, fsWrite fs output_path text)

/-! ## Observers used to state the claims -/

/-- Key lookup on a JSON object (first match; our own records have
unique keys). -/
def jsonLookup (j : Json) (k : String) : Option Json :=
  match j with
  | .obj kvs => lookupList kvs k
  | _ => none

/-- The five keys of a resume record. -/
def recordKeys : List String :=
  ["full_name", "phone_number", "email", "location", "tech_stack"]

/-- Whether a value is an object carrying all five record keys. -/
def hasFiveKeys (j : Json) : Bool :=
  recordKeys.all (fun k => (jsonLookup j k).isSome)

/-! ## Lemmas: whitespace -/

theorem skipWs_append (w l : List Char) (hw : ∀ c ∈ w, isWsChar c = true) :
    skipWs (w ++ l) = skipWs l := by
  induction w with
  | nil => rfl
  | cons c cs ih =>
    have hc : isWsChar c = true := hw c (by simp)
    simp only [List.cons_append, skipWs, hc, if_true]
    exact ih (fun d hd => hw d (by simp [hd]))

theorem skipWs_cons_of_not_ws (c : Char) (l : List Char) (h : isWsChar c = false) :
    skipWs (c :: l) = c :: l := by
  simp [skipWs, h]

theorem newlineIndent_ws (d : Nat) : ∀ c ∈ newlineIndent d, isWsChar c = true := by
  intro c hc
  simp only [newlineIndent, List.mem_cons, List.mem_replicate] at hc
  rcases hc with rfl | ⟨-, rfl⟩ <;> decide

/-! ## Lemmas: hex digits -/

theorem hexVal_hexDig (m : Nat) (h : m < 16) : hexVal (hexDig m) = some m := by
  interval_cases m <;> decide

theorem parseHex4_toHex4 (n : Nat) (h : n < 65536) (r : List Char) :
    parseHex4 (toHex4 n ++ r) = some (n, r) := by
  have h1 : n / 4096 % 16 < 16 := Nat.mod_lt _ (by norm_num)
  have h2 : n / 256 % 16 < 16 := Nat.mod_lt _ (by norm_num)
  have h3 : n / 16 % 16 < 16 := Nat.mod_lt _ (by norm_num)
  have h4 : n % 16 < 16 := Nat.mod_lt _ (by norm_num)
  simp only [toHex4, List.cons_append, List.nil_append, parseHex4,
    hexVal_hexDig _ h1, hexVal_hexDig _ h2, hexVal_hexDig _ h3, hexVal_hexDig _ h4]
  congr 1
  congr 1
  omega

/-! ## Lemmas: string-escape roundtrip -/

theorem char_valid_nat (c : Char) :
    c.toNat < 0xD800 ∨ (0xE000 ≤ c.toNat ∧ c.toNat < 0x110000) :=
  c.valid

theorem parseEscape_hex (n : Nat) (h : n < 0x10000) (hval : n < 0xD800 ∨ 0xE000 ≤ n)
    (rest : List Char) :
    parseEscape ('u' :: (toHex4 n ++ rest)) = some (Char.ofNat n, rest) := by
  rw [parseEscape, if_neg (by decide), if_neg (by decide), if_neg (by decide),
    if_neg (by decide), if_neg (by decide), if_neg (by decide), if_neg (by decide),
    if_neg (by decide), if_pos rfl, parseHex4_toHex4 n h rest]
  simp only []
  rw [if_neg (by omega), if_neg (by omega)]

theorem parseEscape_surrogatePair (n : Nat) (h1 : 0x10000 <= n) (h2 : n < 0x110000)
    (rest : List Char) :
    parseEscape ('u' :: (toHex4 (0xD800 + (n - 0x10000) / 0x400) ++
        ('\\' :: 'u' :: (toHex4 (0xDC00 + (n - 0x10000) % 0x400) ++ rest)))) =
      some (Char.ofNat n, rest) := by
  have hdiv : (n - 0x10000) / 0x400 < 0x400 := by omega
  have hmod : (n - 0x10000) % 0x400 < 0x400 := Nat.mod_lt _ (by norm_num)
  rw [parseEscape, if_neg (by decide), if_neg (by decide), if_neg (by decide),
    if_neg (by decide), if_neg (by decide), if_neg (by decide), if_neg (by decide),
    if_neg (by decide), if_pos rfl,
    parseHex4_toHex4 (0xD800 + (n - 0x10000) / 0x400) (by omega)]
  simp only []
  rw [if_pos (by omega : 0xD800 <= 0xD800 + (n - 0x10000) / 0x400 ∧
    0xD800 + (n - 0x10000) / 0x400 < 0xDC00)]
  rw [if_pos (show True ∧ True from ⟨trivial, trivial⟩)]
  rw [parseHex4_toHex4 (0xDC00 + (n - 0x10000) % 0x400) (by omega) rest]
  simp only []
  rw [if_pos (by omega : 0xDC00 <= 0xDC00 + (n - 0x10000) % 0x400 ∧
    0xDC00 + (n - 0x10000) % 0x400 < 0xE000)]
  have harith : 0x10000 + (0xD800 + (n - 0x10000) / 0x400 - 0xD800) * 0x400 +
      (0xDC00 + (n - 0x10000) % 0x400 - 0xDC00) = n := by omega
  rw [harith]

theorem parseStringBody_encode_step (c : Char) (rest : List Char) (f : Nat)
    (cs t : List Char) (ih : parseStringBody f rest = some (cs, t)) :
    parseStringBody (f + 1) (encodeChar c ++ rest) = some (c :: cs, t) := by
  by_cases h1 : c = '"'
  · subst h1
    rw [show encodeChar '"' = ['\\', '"'] by decide]
    rw [List.cons_append, List.cons_append, List.nil_append]
    rw [parseStringBody, if_neg (by decide), if_pos rfl,
      show parseEscape ('"' :: rest) = some ('"', rest) by rw [parseEscape, if_pos rfl]]
    simp only [ih]
  · by_cases h2 : c = '\\'
    · subst h2
      rw [show encodeChar '\\' = ['\\', '\\'] by decide]
      rw [List.cons_append, List.cons_append, List.nil_append]
      rw [parseStringBody, if_neg (by decide), if_pos rfl,
        show parseEscape ('\\' :: rest) = some ('\\', rest) by
          rw [parseEscape, if_neg (by decide), if_pos rfl]]
      simp only [ih]
    · by_cases h3 : c = '\x08'
      · subst h3
        rw [show encodeChar '\x08' = ['\\', 'b'] by decide]
        rw [List.cons_append, List.cons_append, List.nil_append]
        rw [parseStringBody, if_neg (by decide), if_pos rfl,
          show parseEscape ('b' :: rest) = some ('\x08', rest) by
            rw [parseEscape, if_neg (by decide), if_neg (by decide), if_neg (by decide),
              if_pos rfl]]
        simp only [ih]
      · by_cases h4 : c = '\x0c'
        · subst h4
          rw [show encodeChar '\x0c' = ['\\', 'f'] by decide]
          rw [List.cons_append, List.cons_append, List.nil_append]
          rw [parseStringBody, if_neg (by decide), if_pos rfl,
            show parseEscape ('f' :: rest) = some ('\x0c', rest) by
              rw [parseEscape, if_neg (by decide), if_neg (by decide), if_neg (by decide),
                if_neg (by decide), if_pos rfl]]
          simp only [ih]
        · by_cases h5 : c = '\n'
          · subst h5
            rw [show encodeChar '\n' = ['\\', 'n'] by decide]
            rw [List.cons_append, List.cons_append, List.nil_append]
            rw [parseStringBody, if_neg (by decide), if_pos rfl,
              show parseEscape ('n' :: rest) = some ('\n', rest) by
                rw [parseEscape, if_neg (by decide), if_neg (by decide), if_neg (by decide),
                  if_neg (by decide), if_neg (by decide), if_pos rfl]]
            simp only [ih]
          · by_cases h6 : c = '\r'
            · subst h6
              rw [show encodeChar '\r' = ['\\', 'r'] by decide]
              rw [List.cons_append, List.cons_append, List.nil_append]
              rw [parseStringBody, if_neg (by decide), if_pos rfl,
                show parseEscape ('r' :: rest) = some ('\r', rest) by
                  rw [parseEscape, if_neg (by decide), if_neg (by decide), if_neg (by decide),
                    if_neg (by decide), if_neg (by decide), if_neg (by decide), if_pos rfl]]
              simp only [ih]
            · by_cases h7 : c = '\t'
              · subst h7
                rw [show encodeChar '\t' = ['\\', 't'] by decide]
                rw [List.cons_append, List.cons_append, List.nil_append]
                rw [parseStringBody, if_neg (by decide), if_pos rfl,
                  show parseEscape ('t' :: rest) = some ('\t', rest) by
                    rw [parseEscape, if_neg (by decide), if_neg (by decide), if_neg (by decide),
                      if_neg (by decide), if_neg (by decide), if_neg (by decide),
                      if_neg (by decide), if_pos rfl]]
                simp only [ih]
              · by_cases h8 : c.toNat < 0x20
                · have he : encodeChar c = '\\' :: 'u' :: toHex4 c.toNat := by
                    simp only [encodeChar, if_neg h1, if_neg h2, if_neg h3, if_neg h4,
                      if_neg h5, if_neg h6, if_neg h7, if_pos h8]
                  rw [he, List.cons_append, List.cons_append]
                  rw [parseStringBody, if_neg (by decide), if_pos rfl]
                  rw [parseEscape_hex c.toNat (by omega) (by omega) rest]
                  simp only [Char.ofNat_toNat, ih]
                · by_cases h9 : c.toNat < 0x7f
                  · have he : encodeChar c = [c] := by
                      simp only [encodeChar, if_neg h1, if_neg h2, if_neg h3, if_neg h4,
                        if_neg h5, if_neg h6, if_neg h7, if_neg h8, if_pos h9]
                    rw [he, List.cons_append, List.nil_append]
                    rw [parseStringBody, if_neg h1, if_neg h2, if_neg h8, ih]
                  · by_cases h10 : c.toNat < 0x10000
                    · have hval := char_valid_nat c
                      have he : encodeChar c = '\\' :: 'u' :: toHex4 c.toNat := by
                        simp only [encodeChar, if_neg h1, if_neg h2, if_neg h3, if_neg h4,
                          if_neg h5, if_neg h6, if_neg h7, if_neg h8, if_neg h9, if_pos h10]
                      rw [he, List.cons_append, List.cons_append]
                      rw [parseStringBody, if_neg (by decide), if_pos rfl]
                      rw [parseEscape_hex c.toNat (by omega) (by omega) rest]
                      simp only [Char.ofNat_toNat, ih]
                    · have hval := char_valid_nat c
                      have he : encodeChar c =
                          ('\\' :: 'u' :: toHex4 (0xD800 + (c.toNat - 0x10000) / 0x400)) ++
                          ('\\' :: 'u' :: toHex4 (0xDC00 + (c.toNat - 0x10000) % 0x400)) := by
                        simp only [encodeChar, if_neg h1, if_neg h2, if_neg h3, if_neg h4,
                          if_neg h5, if_neg h6, if_neg h7, if_neg h8, if_neg h9, if_neg h10]
                      rw [he]
                      simp only [List.cons_append, List.append_assoc]
                      rw [parseStringBody, if_neg (by decide), if_pos rfl]
                      rw [parseEscape_surrogatePair c.toNat (by omega) (by omega) rest]
                      simp only [Char.ofNat_toNat, ih]

theorem encodeChar_length_pos (c : Char) : 1 ≤ (encodeChar c).length := by
  unfold encodeChar
  repeat' split
  all_goals simp [toHex4]

theorem length_le_flatMap_encode (cs : List Char) :
    cs.length ≤ (cs.flatMap encodeChar).length := by
  induction cs with
  | nil => simp
  | cons c cs ih =>
    simp only [List.flatMap_cons, List.length_append, List.length_cons]
    have := encodeChar_length_pos c
    omega

theorem parseStringBody_roundtrip (cs : List Char) : ∀ (fuel : Nat) (t : List Char),
    cs.length < fuel →
    parseStringBody fuel (cs.flatMap encodeChar ++ '"' :: t) = some (cs, t) := by
  induction cs with
  | nil =>
    intro fuel t h
    obtain ⟨f, rfl⟩ : ∃ f, fuel = f + 1 := ⟨fuel - 1, by omega⟩
    rw [List.flatMap_nil, List.nil_append, parseStringBody, if_pos rfl]
  | cons c cs ih =>
    intro fuel t h
    obtain ⟨f, rfl⟩ : ∃ f, fuel = f + 1 := ⟨fuel - 1, by omega⟩
    rw [List.flatMap_cons, List.append_assoc]
    refine parseStringBody_encode_step c _ f cs t (ih f t ?_)
    simp only [List.length_cons] at h
    omega

/-! ## Lemmas: rendered values and the scanner -/

theorem parseVal_ws (fuel : Nat) (w l : List Char) (hw : ∀ c ∈ w, isWsChar c = true) :
    parseVal fuel (w ++ l) = parseVal fuel l := by
  cases fuel with
  | zero => rfl
  | succ f =>
    simp only [parseVal]
    rw [skipWs_append w l hw]

theorem renderVal_head (d : Nat) (v : Json) :
    ∃ c t, renderVal d v = c :: t ∧ isWsChar c = false ∧ c ≠ ']' ∧ c ≠ '\x7d' := by
  cases v with
  | null => exact ⟨'n', _, by rw [renderVal], by decide, by decide, by decide⟩
  | str s => exact ⟨'"', _, by rw [renderVal, renderString], by decide, by decide, by decide⟩
  | arr es =>
    cases es with
    | nil => exact ⟨'[', _, by rw [renderVal], by decide, by decide, by decide⟩
    | cons x xs => exact ⟨'[', _, by rw [renderVal], by decide, by decide, by decide⟩
  | obj ms =>
    cases ms with
    | nil => exact ⟨'\x7b', _, by rw [renderVal], by decide, by decide, by decide⟩
    | cons kv kvs => exact ⟨'\x7b', _, by rw [renderVal], by decide, by decide, by decide⟩

mutual

theorem needV_le_len (d : Nat) (v : Json) : needV v ≤ (renderVal d v).length := by
  cases v with
  | null => simp [needV, renderVal]
  | str s => simp [needV, renderVal, renderString]
  | arr es =>
    cases es with
    | nil => simp [needV, renderVal]
    | cons x xs =>
      have h := needE_le_len (d + 1) x xs
      simp only [needV, renderVal, List.length_cons, List.length_append,
        newlineIndent, List.length_replicate]
      omega
  | obj ms =>
    cases ms with
    | nil => simp [needV, renderVal]
    | cons kv kvs =>
      obtain ⟨k, v⟩ := kv
      have h := needM_le_len (d + 1) k v kvs
      simp only [needV, renderVal, List.length_cons, List.length_append,
        newlineIndent, List.length_replicate]
      omega
termination_by sizeOf v

theorem needE_le_len (d : Nat) (x : Json) (xs : List Json) :
    needE x xs ≤ (renderVal d x).length + (renderElems d xs).length + 1 := by
  cases xs with
  | nil =>
    have h := needV_le_len d x
    simp only [needE, renderElems, List.length_nil]
    omega
  | cons y ys =>
    have h1 := needV_le_len d x
    have h2 := needE_le_len d y ys
    simp only [needE, renderElems, List.length_cons, List.length_append,
      newlineIndent, List.length_replicate]
    omega
termination_by sizeOf x + sizeOf xs

theorem needM_le_len (d : Nat) (k : String) (v : Json) (kvs : List (String × Json)) :
    needM (k, v) kvs ≤ (renderMember d (k, v)).length + (renderMembers d kvs).length + 1 := by
  cases kvs with
  | nil =>
    have h := needV_le_len d v
    simp only [needM, renderMember, renderMembers, List.length_nil, List.length_append,
      List.length_cons]
    omega
  | cons m ms =>
    obtain ⟨k2, v2⟩ := m
    have h1 := needV_le_len d v
    have h2 := needM_le_len d k2 v2 ms
    have hm1 : (renderMember d (k, v)).length =
        (renderString k).length + (2 + (renderVal d v).length) := by
      simp [renderMember]
      omega
    have hms : (renderMembers d ((k2, v2) :: ms)).length =
        1 + ((1 + 2 * d) + ((renderMember d (k2, v2)).length +
          (renderMembers d ms).length)) := by
      simp [renderMembers, newlineIndent]
      omega
    simp only [needM]
    omega
termination_by sizeOf v + sizeOf kvs

end

theorem one_le_needV (v : Json) : 1 ≤ needV v := by
  cases v with
  | null => simp [needV]
  | str s => simp [needV]
  | arr es => cases es <;> simp [needV]
  | obj ms => cases ms <;> simp [needV]

theorem one_le_needE (x : Json) (xs : List Json) : 1 ≤ needE x xs := by
  cases xs <;> simp [needE]

theorem one_le_needM (kv : String × Json) (kvs : List (String × Json)) :
    1 ≤ needM kv kvs := by
  obtain ⟨k, v⟩ := kv
  cases kvs <;> simp [needM]

theorem parseVal_null (f : Nat) (r : List Char) :
    parseVal (f + 1) ('n' :: 'u' :: 'l' :: 'l' :: r) = some (.null, r) := by
  rw [parseVal, skipWs_cons_of_not_ws _ _ (by decide)]
  simp only []
  rw [if_pos trivial, if_pos (⟨trivial, trivial, trivial⟩ : True ∧ True ∧ True)]

theorem parseVal_str (f : Nat) (rest : List Char) :
    parseVal (f + 1) ('"' :: rest) =
      (match parseStringBody (rest.length + 1) rest with
       | none => none
       | some (cs, r) => some (.str (String.mk cs), r)) := by
  rw [parseVal, skipWs_cons_of_not_ws _ _ (by decide)]
  simp only []
  rw [if_pos trivial, if_neg (by decide)]

theorem parseVal_arr (f : Nat) (rest : List Char) :
    parseVal (f + 1) ('[' :: rest) =
      (match skipWs rest with
       | [] => none
       | c1 :: r1 =>
         if c1 = ']' then some (.arr [], r1)
         else
           match parseElems f (c1 :: r1) with
           | none => none
           | some (vs, r) => some (.arr vs, r)) := by
  rw [parseVal, skipWs_cons_of_not_ws _ _ (by decide)]
  simp only []
  rw [if_pos trivial, if_neg (by decide), if_neg (by decide)]

theorem parseVal_obj (f : Nat) (rest : List Char) :
    parseVal (f + 1) ('\x7b' :: rest) =
      (match skipWs rest with
       | [] => none
       | c1 :: r1 =>
         if c1 = '\x7d' then some (.obj [], r1)
         else
           match parseMembers f (c1 :: r1) with
           | none => none
           | some (ms, r) => some (.obj ms, r)) := by
  rw [parseVal, skipWs_cons_of_not_ws _ _ (by decide)]
  simp only []
  rw [if_pos trivial, if_neg (by decide), if_neg (by decide), if_neg (by decide)]

mutual

theorem parse_renderV (v : Json) (d fuel : Nat) (rest : List Char)
    (h : needV v ≤ fuel) :
    parseVal fuel (renderVal d v ++ rest) = some (v, rest) := by
  obtain ⟨f, rfl⟩ : ∃ f, fuel = f + 1 :=
    ⟨fuel - 1, by have := one_le_needV v; omega⟩
  cases v with
  | null =>
    rw [renderVal]
    simp only [List.cons_append, List.nil_append]
    exact parseVal_null f rest
  | str s =>
    rw [renderVal, renderString]
    simp only [List.cons_append, List.append_assoc, List.nil_append]
    rw [parseVal_str]
    rw [parseStringBody_roundtrip s.data _ rest
      (by have := length_le_flatMap_encode s.data
          simp only [List.length_append, List.length_cons]
          omega)]
  | arr es =>
    cases es with
    | nil =>
      rw [renderVal]
      simp only [List.cons_append, List.nil_append]
      rw [parseVal_arr, skipWs_cons_of_not_ws _ _ (by decide)]
      simp only []
      rw [if_pos trivial]
    | cons x xs =>
      have hE : needE x xs ≤ f := by
        simp only [needV] at h
        omega
      rw [renderVal]
      simp only [List.cons_append, List.append_assoc, List.nil_append]
      rw [parseVal_arr, skipWs_append _ _ (newlineIndent_ws (d + 1))]
      obtain ⟨c0, t0, hrv, hcw, hcb, hcbr⟩ := renderVal_head (d + 1) x
      rw [hrv]
      simp only [List.cons_append]
      rw [skipWs_cons_of_not_ws _ _ hcw]
      simp only []
      rw [if_neg hcb, ← List.cons_append, ← hrv]
      have he := parse_renderE x xs [] (d + 1) d f rest (by intro c hc; cases hc) hE
      simp only [List.nil_append] at he
      rw [he]
  | obj ms =>
    cases ms with
    | nil =>
      rw [renderVal]
      simp only [List.cons_append, List.nil_append]
      rw [parseVal_obj, skipWs_cons_of_not_ws _ _ (by decide)]
      simp only []
      rw [if_pos trivial]
    | cons kv kvs =>
      obtain ⟨k, v⟩ := kv
      have hM : needM (k, v) kvs ≤ f := by
        simp only [needV] at h
        omega
      rw [renderVal]
      simp only [List.cons_append, List.append_assoc, List.nil_append]
      rw [parseVal_obj, skipWs_append _ _ (newlineIndent_ws (d + 1))]
      rw [renderMember]
      simp only [renderString, List.cons_append, List.append_assoc, List.nil_append]
      rw [skipWs_cons_of_not_ws _ _ (by decide)]
      simp only []
      rw [if_neg (by decide)]
      have hm := parse_renderM k v kvs [] (d + 1) d f rest (by intro c hc; cases hc) hM
      rw [renderMember] at hm
      simp only [renderString, List.cons_append, List.append_assoc, List.nil_append] at hm
      rw [hm]
termination_by fuel

theorem parse_renderE (x : Json) (xs : List Json) (w : List Char) (d d' f : Nat)
    (rest : List Char) (hw : ∀ c ∈ w, isWsChar c = true) (h : needE x xs ≤ f) :
    parseElems f (w ++ (renderVal d x ++ (renderElems d xs ++
      (newlineIndent d' ++ ']' :: rest)))) = some (x :: xs, rest) := by
  obtain ⟨f1, rfl⟩ : ∃ f1, f = f1 + 1 :=
    ⟨f - 1, by have := one_le_needE x xs; omega⟩
  have hVx : needV x ≤ f1 := by
    cases xs <;> (simp only [needE] at h; omega)
  rw [parseElems, parseVal_ws f1 w _ hw, parse_renderV x d f1 _ hVx]
  simp only []
  cases xs with
  | nil =>
    rw [renderElems]
    simp only [List.nil_append]
    rw [skipWs_append _ _ (newlineIndent_ws d'), skipWs_cons_of_not_ws _ _ (by decide)]
    simp only []
    rw [if_neg (by decide), if_pos trivial]
  | cons y ys =>
    have hE : needE y ys ≤ f1 := by
      simp only [needE] at h
      omega
    rw [renderElems]
    simp only [List.cons_append, List.append_assoc]
    rw [skipWs_cons_of_not_ws _ _ (by decide)]
    simp only []
    rw [if_pos trivial]
    rw [parse_renderE y ys (newlineIndent d) d d' f1 rest (newlineIndent_ws d) hE]
termination_by f

theorem parse_renderM (k : String) (v : Json) (kvs : List (String × Json)) (w : List Char)
    (d d' f : Nat) (rest : List Char) (hw : ∀ c ∈ w, isWsChar c = true)
    (h : needM (k, v) kvs ≤ f) :
    parseMembers f (w ++ (renderMember d (k, v) ++ (renderMembers d kvs ++
      (newlineIndent d' ++ '\x7d' :: rest)))) = some ((k, v) :: kvs, rest) := by
  obtain ⟨f1, rfl⟩ : ∃ f1, f = f1 + 1 :=
    ⟨f - 1, by have := one_le_needM (k, v) kvs; omega⟩
  have hVv : needV v ≤ f1 := by
    cases kvs <;> (simp only [needM] at h; omega)
  rw [parseMembers, skipWs_append w _ hw, renderMember]
  simp only [renderString, List.cons_append, List.append_assoc, List.nil_append]
  rw [skipWs_cons_of_not_ws _ _ (by decide)]
  simp only []
  rw [if_pos trivial]
  rw [parseStringBody_roundtrip k.data _ _
    (by have := length_le_flatMap_encode k.data
        simp only [List.length_append, List.length_cons]
        omega)]
  simp only []
  rw [skipWs_cons_of_not_ws _ _ (by decide)]
  simp only []
  rw [if_pos trivial, ← List.singleton_append,
    parseVal_ws f1 [' '] _ (by intro c hc; simp only [List.mem_singleton] at hc; subst hc; rfl),
    parse_renderV v d f1 _ hVv]
  simp only []
  cases kvs with
  | nil =>
    rw [renderMembers]
    simp only [List.nil_append]
    rw [skipWs_append _ _ (newlineIndent_ws d'), skipWs_cons_of_not_ws _ _ (by decide)]
    simp only []
    rw [if_neg (by decide), if_pos trivial]
  | cons m ms =>
    obtain ⟨k2, v2⟩ := m
    have hM : needM (k2, v2) ms ≤ f1 := by
      simp only [needM] at h
      omega
    rw [renderMembers]
    simp only [List.cons_append, List.append_assoc]
    rw [skipWs_cons_of_not_ws _ _ (by decide)]
    simp only []
    rw [if_pos trivial]
    rw [parse_renderM k2 v2 ms (newlineIndent d) d d' f1 rest (newlineIndent_ws d) hM]
termination_by f

end

/-- Serialization with `json.dump(·, f, indent=2)` followed by
`json.loads` restores the value exactly. -/
theorem jsonLoads_jsonDump (v : Json) : jsonLoads (jsonDump v) = .ok v := by
  unfold jsonLoads jsonDump
  have hdata : (String.mk (renderVal 0 v)).data = renderVal 0 v := rfl
  rw [hdata]
  have hneed : needV v ≤ (renderVal 0 v).length + 1 := by
    have := needV_le_len 0 v
    omega
  have hp := parse_renderV v 0 ((renderVal 0 v).length + 1) [] hneed
  rw [List.append_nil] at hp
  rw [hp]
  simp only []
  rw [if_pos (show skipWs ([] : List Char) = [] from rfl)]

/-! ## Lemmas: file system -/

theorem fsRead_fsWrite_same (fs : FS) (p t : String) :
    fsRead (fsWrite fs p t) p = some t := by
  simp [fsRead, fsWrite]

theorem fsRead_fsWrite_other (fs : FS) (p t q : String) (h : q ≠ p) :
    fsRead (fsWrite fs p t) q = fsRead fs q := by
  simp only [fsRead, fsWrite]
  rw [if_neg (fun e => h e.symm)]

/-! ## Lemmas: record shape and dictionary operations -/

theorem extract_shape (resp : Option String) :
    extract_resume_info_with_qwen resp = defaultRecord ∨
    ∃ kvs, extract_resume_info_with_qwen resp = projectRecord kvs := by
  cases resp with
  | none => exact Or.inl rfl
  | some mr =>
    cases hap : attemptedPayload mr with
    | none => exact Or.inl (by simp [extract_resume_info_with_qwen, hap])
    | some payload =>
      cases hl : jsonLoads payload with
      | error e => exact Or.inl (by simp [extract_resume_info_with_qwen, hap, hl])
      | ok v =>
        cases v with
        | obj kvs =>
          exact Or.inr ⟨kvs, by simp [extract_resume_info_with_qwen, hap, hl]⟩
        | null => exact Or.inl (by simp [extract_resume_info_with_qwen, hap, hl])
        | str s => exact Or.inl (by simp [extract_resume_info_with_qwen, hap, hl])
        | arr es => exact Or.inl (by simp [extract_resume_info_with_qwen, hap, hl])

theorem hasFiveKeys_defaultRecord : hasFiveKeys defaultRecord = true := by decide

theorem hasFiveKeys_projectRecord (kvs : List (String × Json)) :
    hasFiveKeys (projectRecord kvs) = true := by
  simp [hasFiveKeys, projectRecord, recordKeys, jsonLookup, lookupList]

theorem lookupList_map_replace (kvs : List (String × Json)) (k : String) (v : Json)
    (hany : kvs.any (fun p => decide (p.1 = k)) = true) :
    lookupList (kvs.map (fun p => if p.1 = k then (k, v) else p)) k = some v := by
  induction kvs with
  | nil => simp at hany
  | cons q rest ih =>
    obtain ⟨k1, v1⟩ := q
    by_cases hq : k1 = k
    · simp only [List.map_cons]
      rw [if_pos hq]
      simp only [lookupList, if_true]
    · simp only [List.any_cons, Bool.or_eq_true, decide_eq_true_eq] at hany
      rcases hany with hq1 | hrest
      · exact absurd hq1 hq
      · simp only [List.map_cons]
        rw [if_neg hq]
        simp only [lookupList, if_neg hq]
        exact ih (by simp [List.any_eq_true]; simpa [List.any_eq_true] using hrest)

theorem lookupList_append_new (kvs : List (String × Json)) (k : String) (v : Json)
    (hany : ¬ kvs.any (fun p => decide (p.1 = k)) = true) :
    lookupList (kvs ++ [(k, v)]) k = some v := by
  induction kvs with
  | nil => simp [lookupList]
  | cons q rest ih =>
    obtain ⟨k1, v1⟩ := q
    simp only [List.any_cons, Bool.or_eq_true, decide_eq_true_eq, not_or] at hany
    obtain ⟨hq, hrest⟩ := hany
    simp only [List.cons_append, lookupList, if_neg hq]
    exact ih (by simpa [List.any_eq_true] using hrest)

theorem jsonLookup_pyDictSet_obj (kvs : List (String × Json)) (k : String) (v : Json) :
    jsonLookup (pyDictSet (.obj kvs) k v) k = some v := by
  simp only [pyDictSet, jsonLookup]
  by_cases hany : kvs.any (fun p => decide (p.1 = k)) = true
  · rw [if_pos hany]
    exact lookupList_map_replace kvs k v hany
  · rw [if_neg hany]
    exact lookupList_append_new kvs k v hany

/-! ## Lemmas: the OCR accumulation loop -/

theorem foldl_ocr_append {Img : Type} (C : Collab Img) (imgs : List Img)
    (acc : List String) :
    imgs.foldl (fun acc img =>
      match C.ocrImage img with
      | none => acc
      | some result => if result.isEmpty then acc else acc ++ result.flatten) acc
    = acc ++ imgs.flatMap (fun img => ((C.ocrImage img).getD []).flatten) := by
  induction imgs generalizing acc with
  | nil => simp
  | cons i is ih =>
    simp only [List.foldl_cons, List.flatMap_cons]
    cases hoc : C.ocrImage i with
    | none =>
      rw [ih]
      simp [hoc]
    | some res =>
      simp only []
      by_cases hres : res.isEmpty
      · rw [if_pos hres, ih]
        have : res = [] := List.isEmpty_iff.mp hres
        subst this
        simp [hoc]
      · rw [if_neg hres, ih]
        simp [hoc, List.append_assoc]

/-! ## Lemmas: `find`/`rfind` -/

theorem listFindIdx_spec (c : Char) : ∀ (l : List Char) (i : Int),
    listFindIdx l c = i → 0 ≤ i → l[i.toNat]? = some c := by
  intro l
  induction l with
  | nil =>
    intro i h hi
    rw [listFindIdx] at h
    omega
  | cons x xs ih =>
    intro i h hi
    rw [listFindIdx] at h
    by_cases hx : x = c
    · rw [if_pos hx] at h
      subst hx
      have hz : i = 0 := h.symm
      subst hz
      simp
    · rw [if_neg hx] at h
      simp only [] at h
      by_cases hr : listFindIdx xs c < 0
      · rw [if_pos hr] at h
        omega
      · rw [if_neg hr] at h
        have h0 : (0 : Int) ≤ listFindIdx xs c := by omega
        have hxs := ih (listFindIdx xs c) rfl h0
        have htn : i.toNat = (listFindIdx xs c).toNat + 1 := by omega
        rw [htn, List.getElem?_cons_succ]
        exact hxs

theorem listRfindIdx_spec (c : Char) : ∀ (l : List Char) (i : Int),
    listRfindIdx l c = i → 0 ≤ i → l[i.toNat]? = some c := by
  intro l
  induction l with
  | nil =>
    intro i h hi
    rw [listRfindIdx] at h
    omega
  | cons x xs ih =>
    intro i h hi
    rw [listRfindIdx] at h
    try simp only [] at h
    by_cases hr : (0 : Int) ≤ listRfindIdx xs c
    · rw [if_pos hr] at h
      have hxs := ih (listRfindIdx xs c) rfl hr
      have htn : i.toNat = (listRfindIdx xs c).toNat + 1 := by omega
      rw [htn, List.getElem?_cons_succ]
      exact hxs
    · rw [if_neg hr] at h
      by_cases hx : x = c
      · rw [if_pos hx] at h
        subst hx
        have hz : i = 0 := h.symm
        subst hz
        simp
      · rw [if_neg hx] at h
        omega

theorem listFindIdx_lt_length (c : Char) (l : List Char) (i : Int)
    (h : listFindIdx l c = i) (hi : 0 ≤ i) : i.toNat < l.length := by
  have := listFindIdx_spec c l i h hi
  exact (List.getElem?_eq_some.mp this).1

theorem listRfindIdx_lt_length (c : Char) (l : List Char) (i : Int)
    (h : listRfindIdx l c = i) (hi : 0 ≤ i) : i.toNat < l.length := by
  have := listRfindIdx_spec c l i h hi
  exact (List.getElem?_eq_some.mp this).1

/-! ## Claim theorems -/

/-- C1 (counterexample): the claim "every record produced by Information
Extraction — including one from a file-read failure inside
`process_resume_file` — contains all five keys" is false: a read failure
produces `{"error": str(e)}` (line 125), which carries none of the five
record keys. -/
theorem claim_C1_counterexample :
    hasFiveKeys (process_resume_file (fun _ => none) (.error "boom")) = false := by
  rfl

/-- C1 (amended): every record produced by
`extract_resume_info_with_qwen` — successful extraction or any internal
model/parse failure — carries all five keys `full_name`, `phone_number`,
`email`, `location`, `tech_stack`; but a file-read failure inside
`process_resume_file` degrades to the differently shaped record
`{"error": str(e)}` instead of the five-key default. -/
theorem claim_C1_amended :
    (∀ resp : Option String,
      hasFiveKeys (extract_resume_info_with_qwen resp) = true) ∧
    (∀ (chat : String → Option String) (e : String),
      process_resume_file chat (.error e) = .obj [("error", .str e)]) := by
  constructor
  · intro resp
    rcases extract_shape resp with h | ⟨kvs, h⟩
    · rw [h]
      exact hasFiveKeys_defaultRecord
    · rw [h]
      exact hasFiveKeys_projectRecord kvs
  · intro chat e
    rfl

/-- C2: for every model response that does not yield parseable JSON after
brace-stripping — no `{`, no `}`, or `json.loads` failing on the stripped
substring — `extract_resume_info_with_qwen` returns exactly the default
record (all four scalars `null`, `tech_stack` empty, `error` set) and,
being a total function here, never raises to its caller. -/
theorem claim_C2_default_on_unparseable (mr : String)
    (h : pyStrFind mr '\x7b' = -1 ∨ pyStrRfind mr '\x7d' = -1 ∨
      ∃ payload, attemptedPayload mr = some payload ∧
        ∃ e, jsonLoads payload = .error e) :
    extract_resume_info_with_qwen (some mr) = defaultRecord := by
  rcases h with h | h | ⟨payload, hap, e, he⟩
  · have hap : attemptedPayload mr = none := by
      simp [attemptedPayload, h]
    simp [extract_resume_info_with_qwen, hap]
  · have hap : attemptedPayload mr = none := by
      simp [attemptedPayload, h]
    simp [extract_resume_info_with_qwen, hap]
  · simp [extract_resume_info_with_qwen, hap, he]

/-- C2 (witness): a response with no brace at all yields the default
record. -/
theorem claim_C2_witness :
    pyStrFind "no json here" '\x7b' = -1 ∧
    extract_resume_info_with_qwen (some "no json here") = defaultRecord :=
  ⟨by decide, claim_C2_default_on_unparseable "no json here" (Or.inl (by decide))⟩

/-- C3 (counterexample): the claim "the candidate payload parsed is the
substring from the first `{` through the last `}`, inclusive of both
braces" fails on the response `"}{"`: both braces are present (first `{`
at index 1, last `}` at index 0), yet the payload handed to `json.loads`
is the empty string, which contains neither brace. -/
theorem claim_C3_counterexample :
    attemptedPayload "\x7d\x7b" = some "" ∧
    pyStrFind "\x7d\x7b" '\x7b' = 1 ∧
    pyStrRfind "\x7d\x7b" '\x7d' = 0 ∧
    (("" : String).data.head? = some '\x7b' → False) := by
  refine ⟨by rfl, by decide, by decide, by simp⟩

/-- C3 (amended): whenever a first `{` (index `i`) and a last `}`
(index `j`) exist, the candidate payload handed to `json.loads` is the
slice `model_response[i : j+1]`; when moreover `i ≤ j` this substring
runs from the first `{` through the last `}` inclusive of both braces
(it starts with `{` and ends with `}`).  In the degenerate case `j < i`
the attempted payload is the empty string. -/
theorem claim_C3_amended (s : String) (i j : Int)
    (hf : pyStrFind s '\x7b' = i) (hr : pyStrRfind s '\x7d' = j)
    (hi : 0 ≤ i) (hj : 0 ≤ j) :
    attemptedPayload s =
      some (String.mk ((s.data.take (j.toNat + 1)).drop i.toNat)) ∧
    (i ≤ j →
      ((s.data.take (j.toNat + 1)).drop i.toNat).head? = some '\x7b' ∧
      ((s.data.take (j.toNat + 1)).drop i.toNat).getLast? = some '\x7d') := by
  have hjlen := listRfindIdx_lt_length '\x7d' s.data j hr hj
  have hilen := listFindIdx_lt_length '\x7b' s.data i hf hi
  constructor
  · simp only [attemptedPayload]
    rw [hf, hr, if_pos ⟨hi, by omega⟩]
    simp only [pySlice, pySliceIdx]
    rw [if_neg (by omega), if_neg (by omega)]
    have e1 : min (j + 1).toNat s.data.length = j.toNat + 1 := by omega
    have e2 : min i.toNat s.data.length = i.toNat := by omega
    rw [e1, e2]
  · intro hij
    constructor
    · rw [List.head?_drop, List.getElem?_take_of_lt (by omega), listFindIdx_spec '\x7b' s.data i hf hi]
    · rw [List.getLast?_eq_getElem?]
      have hlen : ((s.data.take (j.toNat + 1)).drop i.toNat).length =
          j.toNat + 1 - i.toNat := by
        simp only [List.length_drop, List.length_take]
        omega
      rw [hlen, List.getElem?_drop,
        show i.toNat + (j.toNat + 1 - i.toNat - 1) = j.toNat by omega,
        List.getElem?_take_of_lt (by omega),
        listRfindIdx_spec '\x7d' s.data j hr hj]

/-- C3 (witness): on a response where the braces are in order, the
payload is the inclusive brace-to-brace substring. -/
theorem claim_C3_witness :
    attemptedPayload "a \x7b\"k\": null\x7d b" =
      some (String.mk ((("a \x7b\"k\": null\x7d b" : String).data.take 13).drop 2)) ∧
    (("a \x7b\"k\": null\x7d b" : String).data.take 13).drop 2 =
      "\x7b\"k\": null\x7d".data :=
  ⟨(claim_C3_amended "a \x7b\"k\": null\x7d b" 2 12 (by decide) (by decide)
      (by decide) (by decide)).1, by decide⟩

/-- C4: whenever the stripped payload parses as a JSON object, the record
returned has exactly the five recognized keys: the four scalar keys carry
`.get(key)` (the parsed value, `null` when absent), `tech_stack` carries
`.get("tech_stack", [])`, and every other key of the parsed object is
dropped. -/
theorem claim_C4_projection (mr payload : String) (kvs : List (String × Json))
    (h1 : attemptedPayload mr = some payload)
    (h2 : jsonLoads payload = .ok (.obj kvs)) :
    extract_resume_info_with_qwen (some mr) =
      .obj [("full_name", pyDictGet kvs "full_name" .null),
            ("phone_number", pyDictGet kvs "phone_number" .null),
            ("email", pyDictGet kvs "email" .null),
            ("location", pyDictGet kvs "location" .null),
            ("tech_stack", pyDictGet kvs "tech_stack" (.arr []))] := by
  simp [extract_resume_info_with_qwen, h1, h2, projectRecord]

set_option maxRecDepth 8192 in
/-- C4 (witness): a response whose object carries one known key and one
invented key projects onto the five keys, dropping the extra. -/
theorem claim_C4_witness :
    extract_resume_info_with_qwen
      (some "x \x7b\"full_name\": \"Jane\", \"hobby\": null\x7d") =
      .obj [("full_name",
              pyDictGet [("full_name", .str "Jane"), ("hobby", .null)] "full_name" .null),
            ("phone_number",
              pyDictGet [("full_name", .str "Jane"), ("hobby", .null)] "phone_number" .null),
            ("email",
              pyDictGet [("full_name", .str "Jane"), ("hobby", .null)] "email" .null),
            ("location",
              pyDictGet [("full_name", .str "Jane"), ("hobby", .null)] "location" .null),
            ("tech_stack",
              pyDictGet [("full_name", .str "Jane"), ("hobby", .null)] "tech_stack" (.arr []))] :=
  claim_C4_projection "x \x7b\"full_name\": \"Jane\", \"hobby\": null\x7d"
    "\x7b\"full_name\": \"Jane\", \"hobby\": null\x7d"
    [("full_name", .str "Jane"), ("hobby", .null)] (by rfl) (by rfl)

theorem process_resume_file_isObj (chat : String → Option String)
    (r : Except String String) :
    ∃ kvs, process_resume_file chat r = .obj kvs := by
  cases r with
  | error e => exact ⟨[("error", .str e)], rfl⟩
  | ok text =>
    rcases extract_shape (chat text) with h | ⟨kvs, h⟩
    · exact ⟨_, h⟩
    · exact ⟨_, h⟩

/-- C5: over any directory listing, batch processing produces exactly one
record per `*.txt` file, in order, each carrying a `file_name` key equal
to its source file's name; an individual file's read failure changes
neither the count nor the tagging. -/
theorem claim_C5_batch (chat : String → Option String)
    (dir : List (String × Except String String)) :
    (process_all_resumes chat dir).length =
      (dir.filter (fun f => pyEndsWith f.1 ".txt")).length ∧
    ∀ i : Nat, i < (process_all_resumes chat dir).length →
      (process_all_resumes chat dir)[i]?.bind (fun r => jsonLookup r "file_name") =
      ((dir.filter (fun f => pyEndsWith f.1 ".txt"))[i]?.map (fun f => Json.str f.1)) := by
  constructor
  · simp only [process_all_resumes, List.length_map]
  · intro i hi
    simp only [process_all_resumes, List.getElem?_map]
    cases hm : (dir.filter (fun f => pyEndsWith f.1 ".txt"))[i]? with
    | none => rfl
    | some f =>
      simp only [Option.map_some', Option.some_bind]
      obtain ⟨kvs, hobj⟩ := process_resume_file_isObj chat f.2
      rw [hobj, jsonLookup_pyDictSet_obj]

/-- C5 (witness): a three-file directory with one non-`.txt` file and one
failing `.txt` file yields two records, the first tagged `a.txt`. -/
theorem claim_C5_witness :
    (process_all_resumes (fun _ => none)
      [("a.txt", .ok "x"), ("b.pdf", .ok "y"), ("c.txt", .error "boom")]).length = 2 ∧
    (process_all_resumes (fun _ => none)
      [("a.txt", .ok "x"), ("b.pdf", .ok "y"), ("c.txt", .error "boom")])[0]?.bind
        (fun r => jsonLookup r "file_name") = some (.str "a.txt") :=
  ⟨by rfl,
    ((claim_C5_batch (fun _ => none)
      [("a.txt", .ok "x"), ("b.pdf", .ok "y"), ("c.txt", .error "boom")]).2 0
        (by decide)).trans (by rfl)⟩

/-- C6: for a path that does not exist, `extract_text` raises
`FileNotFoundError` (logged then re-raised, surfacing to the caller as
`Except.error`), and the file system is left unchanged — no file is
written. -/
theorem claim_C6_missing_file {Img : Type} (C : Collab Img) (fs : FS) (path : String)
    (h : fsExists fs path = false) :
    extract_text C fs path =
      (.error (.fileNotFound ("File not found: " ++ path)), fs) := by
  simp [extract_text, h]

/-- C6 (witness): the empty file system with any collaborators. -/
theorem claim_C6_witness :
    fsExists ([] : FS) "missing.pdf" = false ∧
    extract_text (Collab.mk (fun _ => .ok ([] : List Unit)) (fun _ => none)
        (fun _ => none)) ([] : FS) "missing.pdf" =
      (.error (.fileNotFound ("File not found: " ++ "missing.pdf")), ([] : FS)) :=
  ⟨rfl, claim_C6_missing_file _ _ _ rfl⟩

/-- C7: `save_extracted_text` writes the text to
`extracted_<stem of the original's base name>.txt` in the original's
directory (deterministically derived from the base name), overwrites any
existing file of that name (the read-back is the new text regardless of
the prior file system), returns that path, and touches no other file. -/
theorem claim_C7_save (fs : FS) (text orig : String) :
    (save_extracted_text fs text orig).1 =
      pyJoin (posixDirname orig)
        ("extracted_" ++ (pySplitext (posixBasename orig)).1 ++ ".txt") ∧
    fsRead (save_extracted_text fs text orig).2 (save_extracted_text fs text orig).1 =
      some text ∧
    ∀ q : String, q ≠ (save_extracted_text fs text orig).1 →
      fsRead (save_extracted_text fs text orig).2 q = fsRead fs q :=
  ⟨rfl, fsRead_fsWrite_same fs _ text, fun q hq => fsRead_fsWrite_other fs _ text q hq⟩

/-- C7 (witness): saving over an existing `extracted_b.txt` next to
`/a/b.pdf` overwrites it and leaves another path untouched. -/
theorem claim_C7_witness :
    (save_extracted_text [("/a/extracted_b.txt", "old")] "new" "/a/b.pdf").1 =
      "/a/extracted_b.txt" ∧
    fsRead (save_extracted_text [("/a/extracted_b.txt", "old")] "new" "/a/b.pdf").2
      "/a/extracted_b.txt" = some "new" ∧
    fsRead (save_extracted_text [("/a/extracted_b.txt", "old")] "new" "/a/b.pdf").2
      "/a/c.txt" = fsRead [("/a/extracted_b.txt", "old")] "/a/c.txt" := by
  have h := claim_C7_save [("/a/extracted_b.txt", "old")] "new" "/a/b.pdf"
  exact ⟨h.1.trans (by rfl), h.2.1, h.2.2 "/a/c.txt" (by decide)⟩

/-- C8: on an existing path, `extract_text` dispatches on the extension:
a case-insensitive `.pdf` match rasterizes every page (in order) and OCRs
each page image independently, any other path is OCRed directly as a
single image; in both branches the recognized region strings of all
pages are flattened into one newline-joined string. -/
theorem claim_C8_dispatch {Img : Type} (C : Collab Img) (fs : FS) (path : String)
    (hex : fsExists fs path = true) :
    (pyEndsWith (pyLower path) ".pdf" = true →
      ∀ imgs : List Img, C.rasterize path = .ok imgs →
        extract_text C fs path =
          (.ok (joinNL (imgs.flatMap (fun img => ((C.ocrImage img).getD []).flatten))),
            fs)) ∧
    (pyEndsWith (pyLower path) ".pdf" = false →
      extract_text C fs path =
        (.ok (joinNL (((C.ocrPath path).getD []).flatten)), fs)) := by
  constructor
  · intro hpdf imgs hras
    simp only [extract_text, hex, hpdf, hras]
    rw [foldl_ocr_append]
    simp
  · intro hpdf
    simp only [extract_text, hex, hpdf]
    cases hoc : C.ocrPath path with
    | none => rfl
    | some res =>
      simp only []
      by_cases hres : res.isEmpty
      · rw [if_pos hres]
        have : res = [] := List.isEmpty_iff.mp hres
        subst this
        rfl
      · rw [if_neg hres]
        rfl

/-- C8 (witness): a two-page PDF whose second page OCRs to a falsy result
yields the newline-joined regions of the first page. -/
theorem claim_C8_witness :
    extract_text (Collab.mk (fun _ => .ok [0, 1])
        (fun i => if i = 0 then some [["a", "b"], ["c"]] else none)
        (fun _ => some [["x"], ["y", "z"]]))
      [("doc.PDF", "blob"), ("img.png", "blob")] "doc.PDF" =
      (.ok "a\nb\nc", [("doc.PDF", "blob"), ("img.png", "blob")]) :=
  ((claim_C8_dispatch (Collab.mk (fun _ => .ok [0, 1])
        (fun i => if i = 0 then some [["a", "b"], ["c"]] else none)
        (fun _ => some [["x"], ["y", "z"]]))
      [("doc.PDF", "blob"), ("img.png", "blob")] "doc.PDF" (by rfl)).1
    (by rfl) [0, 1] (by rfl)).trans (by rfl)

/-- C10: on an existing non-PDF path for which the OCR collaborator
returns a falsy result (`None` or the empty list), `extract_text` returns
the empty string rather than raising. -/
theorem claim_C10_empty_ocr {Img : Type} (C : Collab Img) (fs : FS) (path : String)
    (hex : fsExists fs path = true) (hpdf : pyEndsWith (pyLower path) ".pdf" = false)
    (hocr : C.ocrPath path = none ∨ C.ocrPath path = some []) :
    extract_text C fs path = (.ok "", fs) := by
  simp only [extract_text, hex, hpdf]
  rcases hocr with h | h <;> simp [h]

/-- C10 (witness): an image path on which OCR returns `None`. -/
theorem claim_C10_witness :
    extract_text (Collab.mk (fun _ => .ok ([] : List Unit)) (fun _ => none)
        (fun _ => none)) [("img.png", "blob")] "img.png" =
      (.ok "", [("img.png", "blob")]) :=
  claim_C10_empty_ocr _ _ _ (by rfl) (by rfl) (Or.inl rfl)

/-- C9: writing any record (or sequence of records) with
`save_results_to_json` and reading the file back through `json.loads`
reproduces the structure exactly — in particular equal up to scalar key
order, with `tech_stack` element order preserved. -/
theorem claim_C9_roundtrip (results : Json) (fs : FS) (output_path : String) :
    ∃ contents : String,
      fsRead (save_results_to_json results fs output_path) output_path = some contents ∧
      jsonLoads contents = .ok results :=
  ⟨jsonDump results, fsRead_fsWrite_same fs output_path (jsonDump results),
    jsonLoads_jsonDump results⟩

end TalentScout
